import Mathlib

/-!
Shallow embedding of the Coswara data-merger pipeline
(`src/data_merger.py`, `run_merger.py`): an ETL pipeline that scans a
two-level directory tree for per-patient audio recordings, joins the
resulting inventory against a metadata table on patient identifier,
derives a binary target from the categorical `covid_status` field, adds
two completeness columns and serializes the result.

Tables are modelled as ordered column lists plus rows; a row is an
association list from column name to cell value, mirroring the Python
dicts the DataFrames are built from.  The filesystem is modelled as a
tree of named folders with file-name lists, in listing order.
-/

/-- Cell values of an in-memory table: strings, integers, booleans, or
the missing value `NaN`. -/
inductive Val where
  | str : String → Val
  | nat : Nat → Val
  | bool : Bool → Val
  | na : Val
deriving DecidableEq

/-- A row: an association list from column name to value (a Python dict,
in insertion order). -/
abbrev Row := List (String × Val)

/-- First value stored under column `c`, if any. -/
def rowGet (r : Row) (c : String) : Option Val :=
  (r.find? (fun kv => decide (kv.1 = c))).map (fun kv => kv.2)

/-- A pandas DataFrame: ordered column list plus rows. -/
structure DF where
  cols : List String
  rows : List Row
deriving DecidableEq

/-- The row-level effect of the column assignment `df[c] = v`: overwrite
every cell stored under `c`, or append the new cell at the end. -/
def setCol (r : Row) (c : String) (v : Val) : Row :=
  if (r.find? (fun kv => decide (kv.1 = c))).isSome then
    r.map (fun kv => if kv.1 = c then (c, v) else kv)
  else
    r ++ [(c, v)]

/-- The column-list effect of the column assignment `df[c] = v`. -/
def addColName (cols : List String) (c : String) : List String :=
  if c ∈ cols then cols else cols ++ [c]

/-- Python `s.startswith(p)`. -/
def strStartsWith (s p : String) : Bool :=
  p.data.isPrefixOf s.data

/-- Fuel-indexed worker for `strReplace`; the fuel is the length of the
scanned character list, which bounds the number of steps. -/
def replaceAux (pat rep : List Char) : Nat → List Char → List Char
  | _, [] => []
  | 0, s => s
  | fuel + 1, c :: rest =>
    if pat ≠ [] ∧ pat.isPrefixOf (c :: rest) then
      rep ++ replaceAux pat rep fuel ((c :: rest).drop pat.length)
    else
      c :: replaceAux pat rep fuel rest

/-- Python `s.replace(pat, rep)`: replace every occurrence of `pat`,
scanning left to right. -/
def strReplace (s pat rep : String) : String :=
  ⟨replaceAux pat.data rep.data s.data.length s.data⟩

/-- A patient folder on disk: its name and the names of the files found
inside it. -/
structure PatientDir where
  name : String
  files : List String
deriving DecidableEq

/-- A date folder: its name and its patient subfolders, in listing
order.  Non-directory entries are already absent, matching the
`os.path.isdir` filters of `find_audio_files`. -/
structure DateDir where
  name : String
  patients : List PatientDir
deriving DecidableEq

/-- Model of `os.path.join` for the relative POSIX paths the program builds. -/
def joinPath (a b : String) : String :=
  a ++ "/" ++ b

/-- The nine expected audio file names (`data_merger.py` lines 56–61). -/
def expected_audio_types : List String :=
  ["breathing-deep.wav", "breathing-shallow.wav",
   "cough-heavy.wav", "cough-shallow.wav",
   "counting-normal.wav", "counting-fast.wav",
   "vowel-a.wav", "vowel-e.wav", "vowel-o.wav"]

/-- The key normalization `audio_type.replace('.wav', '').replace('-', '_')`. -/
def normKey (t : String) : String :=
  strReplace (strReplace t ".wav" "") "-" "_"

/-- The presence-flag column name for one audio type. -/
def flagKey (t : String) : String :=
  "has_" ++ normKey t

/-- Presence flag recorded for one audio type: 1 when the file exists in
the patient folder, 0 otherwise. -/
def hasFlag (files : List String) (t : String) : Nat :=
  if t ∈ files then 1 else 0

/-- The `audio_files` dict entries contributed by the scan loop for one
list of audio types, in insertion order: for each type, the path cell
(only when the file exists) followed by the presence flag. -/
def audioEntriesAux (patientPath : String) (files : List String)
    (types : List String) : Row :=
  types.flatMap (fun t =>
    if t ∈ files then
      [(normKey t, Val.str (joinPath patientPath t)),
       (flagKey t, Val.nat 1)]
    else
      [(flagKey t, Val.nat 0)])

/-- The full `audio_files` dict built for one patient folder. -/
def audioEntries (patientPath : String) (files : List String) : Row :=
  audioEntriesAux patientPath files expected_audio_types

/-- The qualification check
`any([audio_files.get(f'has_…', 0) for audio_type in expected_audio_types])`:
at least one of the nine files is present. -/
def anyAudio (files : List String) : Bool :=
  expected_audio_types.any (fun t => decide (t ∈ files))

/-- The `audio_record` dict appended for one qualifying patient folder. -/
def mkAudioRecord (basePath dateName : String) (p : PatientDir) : Row :=
  ("patient_id", Val.str p.name) :: ("date_folder", Val.str dateName) ::
    audioEntries (joinPath (joinPath basePath dateName) p.name) p.files

/-- Column list of `pd.DataFrame(list_of_dicts)`: keys in order of first
appearance across the records. -/
def unionCols (rows : List Row) : List String :=
  rows.foldl (fun acc r => acc ++ ((r.map Prod.fst).filter (fun c => decide (¬ c ∈ acc)))) []

/-- The scan `find_audio_files` (`data_merger.py` lines 33–88): walk the date
folders and their patient folders, and keep one record per patient folder
that contains at least one of the nine expected files. -/
def find_audio_files (basePath : String) (tree : List DateDir) : DF :=
  let records := tree.flatMap (fun d =>
    d.patients.filterMap (fun p =>
      if anyAudio p.files then some (mkAudioRecord basePath d.name p) else none))
  { cols := unionCols records, rows := records }

/-- The candidate metadata identifier columns, tried in order
(`data_merger.py` line 100). -/
def patient_id_columns : List String :=
  ["id", "d", "patient_id"]

/-- The selection loop for the metadata join column: the first candidate
present in the metadata columns. -/
def pickLeftColumn (cols : List String) : Option String :=
  patient_id_columns.find? (fun c => decide (c ∈ cols))

/-- Inner join of metadata rows and inventory rows with
`left_on = lc`, `right_on = 'patient_id'`
(`pd.merge(..., how='inner')`): left rows in order, each paired with its
matching right rows in order. -/
def innerJoin (meta inv : DF) (lc : String) : List Row :=
  meta.rows.flatMap (fun m =>
    (inv.rows.filter (fun a => decide (rowGet a "patient_id" = rowGet m lc))).map
      (fun a => m ++ a))

/-- Merged column list: the left columns followed by the new right
columns. -/
def mergedCols (meta inv : DF) : List String :=
  meta.cols ++ inv.cols.filter (fun c => decide (¬ c ∈ meta.cols))

/-- The merge `merge_datasets` (`data_merger.py` lines 90–128): pick the metadata
identifier column and inner-join the two tables on it; `None` when no
candidate column exists. -/
def merge_datasets (meta inv : DF) : Option DF :=
  match pickLeftColumn meta.cols with
  | none => none
  | some lc => some { cols := mergedCols meta inv, rows := innerJoin meta inv lc }

/-- The fixed `covid_mapping` table (`data_merger.py` lines 143–150). -/
def covid_mapping : String → Option Nat
  | "positive_mild" => some 1
  | "positive_moderate" => some 1
  | "positive_asymp" => some 1
  | "healthy" => some 0
  | "no_resp_illness_exposed" => some 0
  | "recovered_full" => some 0
  | _ => none

/-- Row-level effect of `merged_df['covid_status'].map(covid_mapping)`: categories
outside the table, non-string cells and missing cells all map to `NaN`. -/
def mapTarget (r : Row) : Val :=
  match rowGet r "covid_status" with
  | some (Val.str s) =>
    match covid_mapping s with
    | some n => Val.nat n
    | none => Val.na
  | _ => Val.na

/-- Rows after `merged_df['target'] = merged_df['covid_status'].map(...)`. -/
def withMappedTarget (rows : List Row) : List Row :=
  rows.map (fun r => setCol r "target" (mapTarget r))

/-- The `notna` filter (`data_merger.py` line 158): keep the rows whose
target is not `NaN`. -/
def keepMapped (rows : List Row) : List Row :=
  rows.filter (fun r => decide (rowGet r "target" ≠ some Val.na))

/-- The labeling block (`data_merger.py` lines 139–167): map the status
through `covid_mapping` and drop unmapped rows when `covid_status` is
present; otherwise default every target to 0 and print a warning.
Returns the labeled table together with the warnings printed. -/
def labelStep (merged : DF) : DF × List String :=
  if "covid_status" ∈ merged.cols then
    (⟨addColName merged.cols "target", keepMapped (withMappedTarget merged.rows)⟩, [])
  else
    (⟨addColName merged.cols "target",
      merged.rows.map (fun r => setCol r "target" (Val.nat 0))⟩,
     ["Warning: covid_status column not found. Target variable not created."])

/-- pandas truthiness as used by `.all(axis=1)` with default `skipna`:
`NaN` (and an absent cell) is skipped, i.e. counts as true. -/
def truthy : Option Val → Bool
  | some (Val.nat n) => decide (n ≠ 0)
  | some (Val.bool b) => b
  | some (Val.str s) => decide (s ≠ "")
  | some Val.na => true
  | none => true

/-- Numeric cell value as used by `.sum(axis=1)`: `NaN` (and an absent
cell) counts as 0. -/
def toNum : Option Val → Nat
  | some (Val.nat n) => n
  | some (Val.bool b) => if b then 1 else 0
  | _ => 0

/-- The columns of the merged table whose name starts with `has_`
(`data_merger.py` line 170). -/
def hasColsOf (cols : List String) : List String :=
  cols.filter (fun c => strStartsWith c "has_")

/-- The two derived columns (`data_merger.py` lines 172–173) on one row:
`has_all_audio` is the conjunction and `num_audio_types` the sum of the
selected `has_` cells. -/
def addDerived (hasCols : List String) (r : Row) : Row :=
  setCol
    (setCol r "has_all_audio"
      (Val.bool (hasCols.all (fun c => truthy (rowGet r c)))))
    "num_audio_types"
    (Val.nat ((hasCols.map (fun c => toNum (rowGet r c))).sum))

/-- The derived-features block (`data_merger.py` lines 169–174): when at
least one `has_` column exists, add `has_all_audio` and
`num_audio_types`. -/
def deriveStep (df : DF) : DF :=
  let hasCols := hasColsOf df.cols
  if hasCols.isEmpty then df
  else
    ⟨addColName (addColName df.cols "has_all_audio") "num_audio_types",
     df.rows.map (addDerived hasCols)⟩

/-- The result of one pipeline run: the final table (`None` on failure),
the output files written, and the warnings printed. -/
structure RunResult where
  result : Option DF
  written : List String
  warnings : List String
deriving DecidableEq

/-- The pipeline `create_final_dataset` (`data_merger.py` lines 130–182): merge, fail
with no result when the merge fails or is empty, label, derive, and
write the output file when a path is given. -/
def create_final_dataset (meta inv : DF) (output_path : Option String) : RunResult :=
  match merge_datasets meta inv with
  | none => ⟨none, [], []⟩
  | some merged =>
    if merged.rows.isEmpty then ⟨none, [], []⟩
    else
      let labeled := labelStep merged
      ⟨some (deriveStep labeled.1),
       (match output_path with
        | some p => [p]
        | none => []),
       labeled.2⟩

/-- Rendering of one cell in `to_csv`. -/
def renderVal : Val → String
  | Val.str s => s
  | Val.nat n => toString n
  | Val.bool b => if b then "True" else "False"
  | Val.na => ""

/-- Serialization `df.to_csv(path, index=False)`: the header line followed by one line
per row, cells in column order. -/
def toCsv (df : DF) : String :=
  String.intercalate "," df.cols ++ "\n" ++
    String.join (df.rows.map (fun r =>
      String.intercalate "," (df.cols.map (fun c => renderVal ((rowGet r c).getD Val.na))) ++ "\n"))

/-- The whole pipeline of `run_merger.py`: scan the audio tree, merge it
with the metadata and write the final dataset. -/
def run_pipeline (meta : DF) (basePath : String) (tree : List DateDir)
    (output_path : Option String) : RunResult :=
  create_final_dataset meta (find_audio_files basePath tree) output_path

/-- The bytes written to the output file, when the pipeline produced a
table to write. -/
def outputBytes (res : RunResult) : Option String :=
  res.result.map toCsv

/-! ### Basic lookup lemmas -/

theorem rowGet_nil (c : String) : rowGet [] c = none := rfl

theorem rowGet_cons (k : String) (v : Val) (r : Row) (c : String) :
    rowGet ((k, v) :: r) c = if k = c then some v else rowGet r c := by
  by_cases h : k = c <;> simp [rowGet, List.find?_cons, h]

theorem rowGet_append (r₁ r₂ : Row) (c : String) :
    rowGet (r₁ ++ r₂) c = (rowGet r₁ c).or (rowGet r₂ c) := by
  cases h : List.find? (fun kv => decide (kv.1 = c)) r₁ <;>
    simp [rowGet, List.find?_append, h]

theorem rowGet_eq_none_of_not_mem (r : Row) (c : String)
    (h : ¬ c ∈ r.map Prod.fst) : rowGet r c = none := by
  induction r with
  | nil => rfl
  | cons kv rest ih =>
    simp only [List.map_cons, List.mem_cons] at h
    push_neg at h
    rw [show kv = (kv.1, kv.2) from rfl, rowGet_cons,
        if_neg (fun hh => h.1 hh.symm), ih h.2]

theorem rowGet_map_over_ne (r : Row) (c c' : String) (v : Val) (h : c ≠ c') :
    rowGet (r.map (fun kv => if kv.1 = c then (c, v) else kv)) c' = rowGet r c' := by
  induction r with
  | nil => rfl
  | cons kv rest ih =>
    rcases kv with ⟨k, w⟩
    by_cases hk : k = c
    · subst hk
      have hhead : (if (k, w).1 = k then ((k : String), v) else (k, w)) = (k, v) := if_pos rfl
      rw [List.map_cons, hhead]
      rw [rowGet_cons, rowGet_cons, if_neg h, if_neg h, ih]
    · simp only [List.map_cons, if_neg hk]
      rw [rowGet_cons, rowGet_cons, ih]

theorem rowGet_map_over_self (r : Row) (c : String) (v : Val)
    (h : c ∈ r.map Prod.fst) :
    rowGet (r.map (fun kv => if kv.1 = c then (c, v) else kv)) c = some v := by
  induction r with
  | nil => simp at h
  | cons kv rest ih =>
    rcases kv with ⟨k, w⟩
    by_cases hk : k = c
    · subst hk
      have hhead : (if (k, w).1 = k then ((k : String), v) else (k, w)) = (k, v) := if_pos rfl
      rw [List.map_cons, hhead]
      rw [rowGet_cons, if_pos rfl]
    · have hrest : c ∈ rest.map Prod.fst := by
        simp only [List.map_cons, List.mem_cons] at h
        exact h.resolve_left (fun hh => hk hh.symm)
      simp only [List.map_cons, if_neg hk]
      rw [rowGet_cons, if_neg hk, ih hrest]

theorem rowGet_setCol_self (r : Row) (c : String) (v : Val) :
    rowGet (setCol r c v) c = some v := by
  unfold setCol
  split
  · next h =>
    apply rowGet_map_over_self
    rw [List.find?_isSome] at h
    obtain ⟨kv, hmem, hp⟩ := h
    simp only [decide_eq_true_eq] at hp
    rw [← hp]
    exact List.mem_map_of_mem Prod.fst hmem
  · next h =>
    rw [rowGet_append]
    have hnone : rowGet r c = none := by
      apply rowGet_eq_none_of_not_mem
      intro hc
      apply h
      rw [List.find?_isSome]
      obtain ⟨kv, hmem, hfst⟩ := List.mem_map.mp hc
      exact ⟨kv, hmem, by simp [hfst]⟩
    rw [hnone]
    simp [rowGet_cons]

theorem rowGet_setCol_ne (r : Row) (c c' : String) (v : Val) (h : c ≠ c') :
    rowGet (setCol r c v) c' = rowGet r c' := by
  unfold setCol
  split
  · exact rowGet_map_over_ne r c c' v h
  · rw [rowGet_append, rowGet_cons]
    simp [h, rowGet_nil, Option.or_none]

theorem rowGet_addDerived_ne (hasCols : List String) (r : Row) (c : String)
    (h1 : c ≠ "has_all_audio") (h2 : c ≠ "num_audio_types") :
    rowGet (addDerived hasCols r) c = rowGet r c := by
  unfold addDerived
  rw [rowGet_setCol_ne _ _ _ _ (fun hh => h2 hh.symm),
      rowGet_setCol_ne _ _ _ _ (fun hh => h1 hh.symm)]

theorem rowGet_addDerived_all (hasCols : List String) (r : Row) :
    rowGet (addDerived hasCols r) "has_all_audio" =
      some (Val.bool (hasCols.all (fun c => truthy (rowGet r c)))) := by
  unfold addDerived
  rw [rowGet_setCol_ne _ _ _ _ (by decide), rowGet_setCol_self]

theorem rowGet_addDerived_num (hasCols : List String) (r : Row) :
    rowGet (addDerived hasCols r) "num_audio_types" =
      some (Val.nat ((hasCols.map (fun c => toNum (rowGet r c))).sum)) := by
  unfold addDerived
  rw [rowGet_setCol_self]

/-! ### String-key disjointness helpers -/

theorem str_append_left_cancel {a b c : String} (h : a ++ b = a ++ c) : b = c := by
  apply String.ext
  have hd := congrArg String.data h
  rw [String.data_append, String.data_append] at hd
  exact List.append_cancel_left hd

theorem flagKey_inj {t t' : String} (h : flagKey t = flagKey t') :
    normKey t = normKey t' :=
  str_append_left_cancel h

/-! ### Lookup lemmas for the per-patient audio dict -/

theorem audioEntriesAux_cons (pp : String) (files : List String) (t : String)
    (rest : List String) :
    audioEntriesAux pp files (t :: rest) =
      (if t ∈ files then
        [(normKey t, Val.str (joinPath pp t)), (flagKey t, Val.nat 1)]
      else
        [(flagKey t, Val.nat 0)]) ++ audioEntriesAux pp files rest := by
  unfold audioEntriesAux
  rw [List.flatMap_cons]

theorem rowGet_audioEntriesAux_none (pp : String) (files : List String)
    (types : List String) (key : String)
    (h : ∀ t ∈ types, normKey t ≠ key ∧ flagKey t ≠ key) :
    rowGet (audioEntriesAux pp files types) key = none := by
  induction types with
  | nil => rfl
  | cons t rest ih =>
    have ht := h t (List.mem_cons_self t rest)
    rw [audioEntriesAux_cons, rowGet_append]
    have hseg :
        rowGet (if t ∈ files then
          [(normKey t, Val.str (joinPath pp t)), (flagKey t, Val.nat 1)]
        else
          [(flagKey t, Val.nat 0)]) key = none := by
      split <;> simp [rowGet_cons, ht.1, ht.2, rowGet_nil]
    rw [hseg, Option.none_or]
    exact ih (fun t' ht' => h t' (List.mem_cons_of_mem t ht'))

theorem rowGet_audioEntriesAux_flag (pp : String) (files : List String)
    (types : List String) (t : String) (ht : t ∈ types)
    (hnd : (types.map normKey).Nodup)
    (hcross : ∀ t' ∈ types, normKey t' ≠ flagKey t) :
    rowGet (audioEntriesAux pp files types) (flagKey t) =
      some (Val.nat (hasFlag files t)) := by
  induction types with
  | nil => cases ht
  | cons t0 rest ih =>
    rw [audioEntriesAux_cons, rowGet_append]
    rcases List.mem_cons.mp ht with h1 | h1
    · subst h1
      have hne : normKey t ≠ flagKey t := hcross t (List.mem_cons_self t rest)
      by_cases hf : t ∈ files
      · rw [if_pos hf]
        simp [rowGet_cons, hne, hasFlag, hf]
      · rw [if_neg hf]
        simp [rowGet_cons, hasFlag, hf]
    · have hn0 : normKey t0 ≠ normKey t := by
        intro he
        have : normKey t0 ∈ rest.map normKey := he ▸ List.mem_map_of_mem normKey h1
        exact (List.nodup_cons.mp hnd).1 this
      have hseg :
          rowGet (if t0 ∈ files then
            [(normKey t0, Val.str (joinPath pp t0)), (flagKey t0, Val.nat 1)]
          else
            [(flagKey t0, Val.nat 0)]) (flagKey t) = none := by
        have h2 : flagKey t0 ≠ flagKey t := fun he => hn0 (flagKey_inj he)
        have h3 : normKey t0 ≠ flagKey t := hcross t0 (List.mem_cons_self t0 rest)
        split <;> simp [rowGet_cons, h2, h3, rowGet_nil]
      rw [hseg, Option.none_or]
      exact ih h1 (List.nodup_cons.mp hnd).2
        (fun t' ht' => hcross t' (List.mem_cons_of_mem t0 ht'))

theorem rowGet_audioEntriesAux_path (pp : String) (files : List String)
    (types : List String) (t : String) (ht : t ∈ types)
    (hnd : (types.map normKey).Nodup)
    (hcross : ∀ t' ∈ types, flagKey t' ≠ normKey t) :
    rowGet (audioEntriesAux pp files types) (normKey t) =
      (if t ∈ files then some (Val.str (joinPath pp t)) else none) := by
  induction types with
  | nil => cases ht
  | cons t0 rest ih =>
    rw [audioEntriesAux_cons, rowGet_append]
    rcases List.mem_cons.mp ht with h1 | h1
    · subst h1
      have hne : flagKey t ≠ normKey t := hcross t (List.mem_cons_self t rest)
      by_cases hf : t ∈ files
      · rw [if_pos hf, if_pos hf]
        simp [rowGet_cons]
      · rw [if_neg hf, if_neg hf]
        have hseg : rowGet [(flagKey t, Val.nat 0)] (normKey t) = none := by
          simp [rowGet_cons, hne, rowGet_nil]
        rw [hseg, Option.none_or]
        apply rowGet_audioEntriesAux_none
        intro t' ht'
        constructor
        · intro he
          have : normKey t ∈ rest.map normKey := he ▸ List.mem_map_of_mem normKey ht'
          exact (List.nodup_cons.mp hnd).1 this
        · exact hcross t' (List.mem_cons_of_mem t ht')
    · have hn0 : normKey t0 ≠ normKey t := by
        intro he
        have : normKey t0 ∈ rest.map normKey := he ▸ List.mem_map_of_mem normKey h1
        exact (List.nodup_cons.mp hnd).1 this
      have hseg :
          rowGet (if t0 ∈ files then
            [(normKey t0, Val.str (joinPath pp t0)), (flagKey t0, Val.nat 1)]
          else
            [(flagKey t0, Val.nat 0)]) (normKey t) = none := by
        have h3 : flagKey t0 ≠ normKey t := hcross t0 (List.mem_cons_self t0 rest)
        split <;> simp [rowGet_cons, hn0, h3, rowGet_nil]
      rw [hseg, Option.none_or]
      exact ih h1 (List.nodup_cons.mp hnd).2
        (fun t' ht' => hcross t' (List.mem_cons_of_mem t0 ht'))

/-! ### The nine concrete audio types -/

theorem expected_normKeys_nodup : (expected_audio_types.map normKey).Nodup := by
  decide

theorem expected_cross_flag :
    ∀ t ∈ expected_audio_types, ∀ t' ∈ expected_audio_types,
      normKey t' ≠ flagKey t := by
  decide

theorem expected_cross_path :
    ∀ t ∈ expected_audio_types, ∀ t' ∈ expected_audio_types,
      flagKey t' ≠ normKey t := by
  decide

theorem expected_keys_fresh :
    ∀ t ∈ expected_audio_types,
      "patient_id" ≠ flagKey t ∧ "date_folder" ≠ flagKey t ∧
      "patient_id" ≠ normKey t ∧ "date_folder" ≠ normKey t := by
  decide

/-! ### Lookup lemmas for one inventory record -/

theorem rowGet_mkAudioRecord_pid (b d : String) (p : PatientDir) :
    rowGet (mkAudioRecord b d p) "patient_id" = some (Val.str p.name) := by
  unfold mkAudioRecord
  rw [rowGet_cons, if_pos rfl]

theorem rowGet_mkAudioRecord_date (b d : String) (p : PatientDir) :
    rowGet (mkAudioRecord b d p) "date_folder" = some (Val.str d) := by
  unfold mkAudioRecord
  rw [rowGet_cons, if_neg (by decide), rowGet_cons, if_pos rfl]

theorem rowGet_mkAudioRecord_flag (b d : String) (p : PatientDir) (t : String)
    (ht : t ∈ expected_audio_types) :
    rowGet (mkAudioRecord b d p) (flagKey t) = some (Val.nat (hasFlag p.files t)) := by
  unfold mkAudioRecord
  rw [rowGet_cons, if_neg (expected_keys_fresh t ht).1,
      rowGet_cons, if_neg (expected_keys_fresh t ht).2.1]
  exact rowGet_audioEntriesAux_flag _ _ _ _ ht expected_normKeys_nodup
    (fun t' ht' => expected_cross_flag t ht t' ht')

theorem rowGet_mkAudioRecord_path (b d : String) (p : PatientDir) (t : String)
    (ht : t ∈ expected_audio_types) :
    rowGet (mkAudioRecord b d p) (normKey t) =
      (if t ∈ p.files then
        some (Val.str (joinPath (joinPath (joinPath b d) p.name) t))
      else none) := by
  unfold mkAudioRecord
  rw [rowGet_cons, if_neg (expected_keys_fresh t ht).2.2.1,
      rowGet_cons, if_neg (expected_keys_fresh t ht).2.2.2]
  exact rowGet_audioEntriesAux_path _ _ _ _ ht expected_normKeys_nodup
    (fun t' ht' => expected_cross_path t ht t' ht')

/-! ### Characterization of the scanned inventory -/

theorem anyAudio_iff (files : List String) :
    anyAudio files = true ↔ ∃ t ∈ expected_audio_types, t ∈ files := by
  simp [anyAudio, List.any_eq_true]

theorem mem_find_audio_files (b : String) (tree : List DateDir) (r : Row) :
    r ∈ (find_audio_files b tree).rows ↔
      ∃ d ∈ tree, ∃ p ∈ d.patients, anyAudio p.files = true ∧
        r = mkAudioRecord b d.name p := by
  unfold find_audio_files
  simp only [List.mem_flatMap, List.mem_filterMap]
  constructor
  · rintro ⟨d, hd, p, hp, hif⟩
    by_cases hany : anyAudio p.files
    · rw [if_pos hany] at hif
      exact ⟨d, hd, p, hp, hany, (Option.some.inj hif).symm⟩
    · rw [if_neg hany] at hif
      cases hif
  · rintro ⟨d, hd, p, hp, hany, rfl⟩
    exact ⟨d, hd, p, hp, by rw [if_pos hany]⟩

/-! ### Derived flag views of a row -/

/-- Sum of the nine presence flags as read from a row. -/
def nineFlagSum (r : Row) : Nat :=
  (expected_audio_types.map (fun t => toNum (rowGet r (flagKey t)))).sum

/-- All nine presence flags of a row equal 1. -/
def allNineOnes (r : Row) : Bool :=
  expected_audio_types.all (fun t => decide (rowGet r (flagKey t) = some (Val.nat 1)))

/-- Count of the nine presence flags of a row that equal 1. -/
def nineOnesCount (r : Row) : Nat :=
  (expected_audio_types.filter (fun t => decide (rowGet r (flagKey t) = some (Val.nat 1)))).length

/-! ### Concrete fixtures used by the witnesses -/

def wPatientA : PatientDir := ⟨"A", ["cough-heavy.wav"]⟩

def wPatientB : PatientDir := ⟨"B", ["cough-heavy.wav", "vowel-a.wav"]⟩

def wPatientZ : PatientDir := ⟨"Z", []⟩

def wDate : DateDir := ⟨"20200413", [wPatientA, wPatientB, wPatientZ]⟩

def wTree : List DateDir := [wDate]

def wMeta : DF :=
  ⟨["id", "covid_status"],
   [[("id", Val.str "A"), ("covid_status", Val.str "healthy")],
    [("id", Val.str "B"), ("covid_status", Val.str "positive_mild")],
    [("id", Val.str "C"), ("covid_status", Val.str "under_validation")]]⟩

def wInv : DF := find_audio_files "Extracted_data" wTree

/-- C3: the audio inventory produced by `find_audio_files` contains a
record for a patient folder iff at least one of the nine expected audio
files exists in it, and each record carries the patient identifier
(= the folder name), the date-folder name, all nine presence flags, and a
path field for exactly the files that are present. -/
theorem C3_inventory_characterization (b : String) (tree : List DateDir) :
    (∀ r, r ∈ (find_audio_files b tree).rows ↔
      ∃ d ∈ tree, ∃ p ∈ d.patients, (∃ t ∈ expected_audio_types, t ∈ p.files) ∧
        r = mkAudioRecord b d.name p) ∧
    (∀ d ∈ tree, ∀ p ∈ d.patients,
      rowGet (mkAudioRecord b d.name p) "patient_id" = some (Val.str p.name) ∧
      rowGet (mkAudioRecord b d.name p) "date_folder" = some (Val.str d.name) ∧
      ∀ t ∈ expected_audio_types,
        rowGet (mkAudioRecord b d.name p) (flagKey t) =
          some (Val.nat (hasFlag p.files t)) ∧
        rowGet (mkAudioRecord b d.name p) (normKey t) =
          (if t ∈ p.files then
            some (Val.str (joinPath (joinPath (joinPath b d.name) p.name) t))
          else none)) := by
  constructor
  · intro r
    rw [mem_find_audio_files]
    constructor
    · rintro ⟨d, hd, p, hp, hany, rfl⟩
      exact ⟨d, hd, p, hp, (anyAudio_iff p.files).mp hany, rfl⟩
    · rintro ⟨d, hd, p, hp, hex, rfl⟩
      exact ⟨d, hd, p, hp, (anyAudio_iff p.files).mpr hex, rfl⟩
  · intro d _ p _
    exact ⟨rowGet_mkAudioRecord_pid b d.name p, rowGet_mkAudioRecord_date b d.name p,
      fun t ht => ⟨rowGet_mkAudioRecord_flag b d.name p t ht,
        rowGet_mkAudioRecord_path b d.name p t ht⟩⟩

theorem C3_inventory_characterization_witness :
    mkAudioRecord "Extracted_data" "20200413" wPatientA ∈
        (find_audio_files "Extracted_data" wTree).rows ∧
    rowGet (mkAudioRecord "Extracted_data" "20200413" wPatientA) "patient_id" =
      some (Val.str "A") :=
  ⟨((C3_inventory_characterization "Extracted_data" wTree).1
      (mkAudioRecord "Extracted_data" "20200413" wPatientA)).mpr
    ⟨wDate, by decide, wPatientA, by decide,
     ⟨"cough-heavy.wav", by decide, by decide⟩, rfl⟩,
   ((C3_inventory_characterization "Extracted_data" wTree).2 wDate (by decide)
      wPatientA (by decide)).1⟩

/-- C9: every inventory record defines all nine presence flags with
values in {0, 1}, contains the path field for a recording type iff the
flag is 1, and has flag sum between 1 and 9. -/
theorem C9_record_flag_invariants (b : String) (tree : List DateDir) :
    ∀ r ∈ (find_audio_files b tree).rows,
      (∀ t ∈ expected_audio_types,
        rowGet r (flagKey t) = some (Val.nat 0) ∨
        rowGet r (flagKey t) = some (Val.nat 1)) ∧
      (∀ t ∈ expected_audio_types,
        ((rowGet r (normKey t)).isSome ↔ rowGet r (flagKey t) = some (Val.nat 1))) ∧
      1 ≤ nineFlagSum r ∧ nineFlagSum r ≤ 9 := by
  intro r hr
  obtain ⟨d, hd, p, hp, hany, rfl⟩ := (mem_find_audio_files b tree r).mp hr
  refine ⟨?_, ?_, ?_, ?_⟩
  · intro t ht
    rw [rowGet_mkAudioRecord_flag b d.name p t ht]
    unfold hasFlag
    split
    · right; rfl
    · left; rfl
  · intro t ht
    rw [rowGet_mkAudioRecord_flag b d.name p t ht, rowGet_mkAudioRecord_path b d.name p t ht]
    by_cases hf : t ∈ p.files
    · simp [hf, hasFlag]
    · simp [hf, hasFlag]
  · obtain ⟨t, ht, htf⟩ := (anyAudio_iff p.files).mp hany
    unfold nineFlagSum
    have hmem : (1 : Nat) ∈ expected_audio_types.map
        (fun t => toNum (rowGet (mkAudioRecord b d.name p) (flagKey t))) := by
      apply List.mem_map.mpr
      refine ⟨t, ht, ?_⟩
      rw [rowGet_mkAudioRecord_flag b d.name p t ht]
      simp [toNum, hasFlag, htf]
    exact List.single_le_sum (fun x _ => Nat.zero_le x) 1 hmem
  · unfold nineFlagSum
    refine le_trans (List.sum_le_card_nsmul _ 1 ?_) ?_
    · intro x hx
      obtain ⟨t, ht, rfl⟩ := List.mem_map.mp hx
      rw [rowGet_mkAudioRecord_flag b d.name p t ht]
      have htn : toNum (some (Val.nat (hasFlag p.files t))) = hasFlag p.files t := rfl
      rw [htn]
      unfold hasFlag
      split <;> simp
    · simp [expected_audio_types]

theorem C9_record_flag_invariants_witness :
    1 ≤ nineFlagSum (mkAudioRecord "Extracted_data" "20200413" wPatientA) ∧
    nineFlagSum (mkAudioRecord "Extracted_data" "20200413" wPatientA) ≤ 9 :=
  ((C9_record_flag_invariants "Extracted_data" wTree)
    (mkAudioRecord "Extracted_data" "20200413" wPatientA) (by decide)).2.2

/-- C5: `merge_datasets` selects the metadata join column by trying the
candidate names `id`, then `d`, then `patient_id` in that order and using
the first one present; when none of the three is present it reports an
error and returns no result. -/
theorem C5_join_column_choice (meta inv : DF) :
    pickLeftColumn meta.cols =
      (if "id" ∈ meta.cols then some "id"
       else if "d" ∈ meta.cols then some "d"
       else if "patient_id" ∈ meta.cols then some "patient_id"
       else none) ∧
    (merge_datasets meta inv = none ↔
      ¬ "id" ∈ meta.cols ∧ ¬ "d" ∈ meta.cols ∧ ¬ "patient_id" ∈ meta.cols) := by
  have hpick : pickLeftColumn meta.cols =
      (if "id" ∈ meta.cols then some "id"
       else if "d" ∈ meta.cols then some "d"
       else if "patient_id" ∈ meta.cols then some "patient_id"
       else none) := by
    unfold pickLeftColumn patient_id_columns
    by_cases h1 : "id" ∈ meta.cols <;> by_cases h2 : "d" ∈ meta.cols <;>
      by_cases h3 : "patient_id" ∈ meta.cols <;>
      simp [List.find?, h1, h2, h3]
  refine ⟨hpick, ?_⟩
  unfold merge_datasets
  rw [hpick]
  by_cases h1 : "id" ∈ meta.cols <;> by_cases h2 : "d" ∈ meta.cols <;>
    by_cases h3 : "patient_id" ∈ meta.cols <;> simp [h1, h2, h3]

theorem create_final_none (meta inv : DF) (op : Option String)
    (hm : merge_datasets meta inv = none) :
    create_final_dataset meta inv op = ⟨none, [], []⟩ := by
  unfold create_final_dataset
  rw [hm]

theorem create_final_empty (meta inv : DF) (op : Option String) (merged : DF)
    (hm : merge_datasets meta inv = some merged) (he : merged.rows = []) :
    create_final_dataset meta inv op = ⟨none, [], []⟩ := by
  unfold create_final_dataset
  rw [hm]
  show (if merged.rows.isEmpty = true then (⟨none, [], []⟩ : RunResult)
    else ⟨some (deriveStep (labelStep merged).1),
      (match op with | some p => [p] | none => []), (labelStep merged).2⟩) = ⟨none, [], []⟩
  rw [he]
  rfl

/-- C8: the pipeline is deterministic — two runs on equal metadata, equal
scan roots and equal directory listings produce byte-identical serialized
output. -/
theorem C8_pipeline_deterministic (m₁ m₂ : DF) (b₁ b₂ : String)
    (t₁ t₂ : List DateDir) (op : Option String)
    (hm : m₁ = m₂) (hb : b₁ = b₂) (ht : t₁ = t₂) :
    outputBytes (run_pipeline m₁ b₁ t₁ op) = outputBytes (run_pipeline m₂ b₂ t₂ op) := by
  rw [hm, hb, ht]

theorem C8_pipeline_deterministic_witness :
    outputBytes (run_pipeline wMeta "Extracted_data" wTree (some "merged_coswara_dataset.csv")) =
      outputBytes (run_pipeline wMeta "Extracted_data" wTree (some "merged_coswara_dataset.csv")) :=
  C8_pipeline_deterministic wMeta wMeta "Extracted_data" "Extracted_data" wTree wTree
    (some "merged_coswara_dataset.csv") rfl rfl rfl

/-! ### Unfolding lemmas for the labeling stage -/

theorem create_final_eq (meta inv : DF) (op : Option String) (merged : DF)
    (hm : merge_datasets meta inv = some merged) (hne : merged.rows ≠ []) :
    create_final_dataset meta inv op =
      ⟨some (deriveStep (labelStep merged).1),
       (match op with | some p => [p] | none => []),
       (labelStep merged).2⟩ := by
  unfold create_final_dataset
  rw [hm]
  show (if merged.rows.isEmpty = true then (⟨none, [], []⟩ : RunResult)
    else ⟨some (deriveStep (labelStep merged).1),
      (match op with | some p => [p] | none => []), (labelStep merged).2⟩) = _
  rw [if_neg (by simp [List.isEmpty_iff, hne])]

/-- C7: on every failure path of `create_final_dataset` that returns no
result, no output file is written. -/
theorem C7_no_write_on_failure (meta inv : DF) (op : Option String)
    (h : (create_final_dataset meta inv op).result = none) :
    (create_final_dataset meta inv op).written = [] := by
  cases hm : merge_datasets meta inv with
  | none => rw [create_final_none meta inv op hm]
  | some merged =>
    by_cases he : merged.rows = []
    · rw [create_final_empty meta inv op merged hm he]
    · rw [create_final_eq meta inv op merged hm he] at h
      simp at h

def wBadMeta : DF :=
  ⟨["name", "covid_status"], [[("name", Val.str "A"), ("covid_status", Val.str "healthy")]]⟩

theorem C7_no_write_on_failure_witness :
    (create_final_dataset wBadMeta wInv (some "merged_coswara_dataset.csv")).result = none ∧
    (create_final_dataset wBadMeta wInv (some "merged_coswara_dataset.csv")).written = [] :=
  ⟨by decide, C7_no_write_on_failure wBadMeta wInv (some "merged_coswara_dataset.csv") (by decide)⟩


theorem labelStep_pos (merged : DF) (h : "covid_status" ∈ merged.cols) :
    labelStep merged =
      (⟨addColName merged.cols "target", keepMapped (withMappedTarget merged.rows)⟩, []) := by
  unfold labelStep
  rw [if_pos h]

theorem labelStep_neg (merged : DF) (h : ¬ "covid_status" ∈ merged.cols) :
    labelStep merged =
      (⟨addColName merged.cols "target",
        merged.rows.map (fun r => setCol r "target" (Val.nat 0))⟩,
       ["Warning: covid_status column not found. Target variable not created."]) := by
  unfold labelStep
  rw [if_neg h]

theorem mem_keepMapped (rows : List Row) (r' : Row) :
    r' ∈ keepMapped (withMappedTarget rows) ↔
      ∃ m ∈ rows, mapTarget m ≠ Val.na ∧ r' = setCol m "target" (mapTarget m) := by
  unfold keepMapped withMappedTarget
  constructor
  · intro h
    obtain ⟨hmem, hcond⟩ := List.mem_filter.mp h
    obtain ⟨m, hm, rfl⟩ := List.mem_map.mp hmem
    refine ⟨m, hm, ?_, rfl⟩
    intro hna
    simp [rowGet_setCol_self, hna] at hcond
  · rintro ⟨m, hm, hna, rfl⟩
    apply List.mem_filter.mpr
    refine ⟨List.mem_map_of_mem _ hm, ?_⟩
    simp [rowGet_setCol_self, hna]

theorem mem_deriveStep (df : DF) (r : Row) :
    r ∈ (deriveStep df).rows ↔
      (if (hasColsOf df.cols).isEmpty then r ∈ df.rows
       else ∃ r' ∈ df.rows, r = addDerived (hasColsOf df.cols) r') := by
  unfold deriveStep
  by_cases h : (hasColsOf df.cols).isEmpty
  · simp [h]
  · simp only [h, if_false, Bool.false_eq_true, if_neg]
    simp [List.mem_map, eq_comm]

theorem deriveStep_rows_length (df : DF) :
    (deriveStep df).rows.length = df.rows.length := by
  unfold deriveStep
  show (if (hasColsOf df.cols).isEmpty = true then df
    else ⟨addColName (addColName df.cols "has_all_audio") "num_audio_types",
      df.rows.map (addDerived (hasColsOf df.cols))⟩).rows.length = df.rows.length
  split
  · rfl
  · simp

theorem length_keepMapped (rows : List Row) :
    (keepMapped (withMappedTarget rows)).length =
      (rows.filter (fun m => decide (mapTarget m ≠ Val.na))).length := by
  unfold keepMapped withMappedTarget
  rw [List.filter_map, List.length_map]
  congr 1
  apply List.filter_congr
  intro m _
  simp [Function.comp, rowGet_setCol_self]

/-! ### Analysis of the target mapping -/

theorem mapTarget_not_na (m : Row) (h : mapTarget m ≠ Val.na) :
    ∃ s n, rowGet m "covid_status" = some (Val.str s) ∧ covid_mapping s = some n ∧
      mapTarget m = Val.nat n := by
  unfold mapTarget at h ⊢
  cases hg : rowGet m "covid_status" with
  | none => simp only [hg] at h; exact absurd rfl h
  | some v =>
    cases v with
    | str s =>
      simp only [hg] at h ⊢
      cases hc : covid_mapping s with
      | none => simp only [hc] at h; exact absurd rfl h
      | some n =>
        simp only [hc] at h ⊢
        exact ⟨s, n, rfl, hc, rfl⟩
    | nat n => simp only [hg] at h; exact absurd rfl h
    | bool b => simp only [hg] at h; exact absurd rfl h
    | na => simp only [hg] at h; exact absurd rfl h

theorem covid_mapping_spec (s : String) (n : Nat) (h : covid_mapping s = some n) :
    (n = 0 ∨ n = 1) ∧
    (s = "positive_mild" ∨ s = "positive_moderate" ∨ s = "positive_asymp" ∨
     s = "healthy" ∨ s = "no_resp_illness_exposed" ∨ s = "recovered_full") := by
  unfold covid_mapping at h
  split at h <;> simp_all

/-- C4: when `covid_status` is present in the merged table, every final
row's target comes from the fixed six-entry mapping and the
unmapped-status rows are dropped (every mapped merged row survives, with
its status untouched); when `covid_status` is absent every row's target
defaults to 0 and a warning is emitted. -/
theorem C4_target_labeling (meta inv : DF) (op : Option String) (merged : DF)
    (hm : merge_datasets meta inv = some merged) (hne : merged.rows ≠ []) :
    ∃ df, (create_final_dataset meta inv op).result = some df ∧
      ("covid_status" ∈ merged.cols →
        (∀ r ∈ df.rows, ∃ s n, rowGet r "covid_status" = some (Val.str s) ∧
          covid_mapping s = some n ∧ rowGet r "target" = some (Val.nat n)) ∧
        (∀ m ∈ merged.rows, mapTarget m ≠ Val.na →
          ∃ r ∈ df.rows, rowGet r "target" = some (mapTarget m) ∧
            rowGet r "covid_status" = rowGet m "covid_status")) ∧
      (¬ "covid_status" ∈ merged.cols →
        (∀ r ∈ df.rows, rowGet r "target" = some (Val.nat 0)) ∧
        (create_final_dataset meta inv op).warnings ≠ []) := by
  rw [create_final_eq meta inv op merged hm hne]
  refine ⟨deriveStep (labelStep merged).1, rfl, ?_, ?_⟩
  · intro hcov
    have hcols : (labelStep merged).1.cols = addColName merged.cols "target" := by
      rw [labelStep_pos merged hcov]
    have hrows : (labelStep merged).1.rows = keepMapped (withMappedTarget merged.rows) := by
      rw [labelStep_pos merged hcov]
    constructor
    · intro r hr
      rw [mem_deriveStep, hcols, hrows] at hr
      split at hr
      · obtain ⟨m, hmem, hna, rfl⟩ := (mem_keepMapped merged.rows r).mp hr
        obtain ⟨s, n, hs, hc, hmt⟩ := mapTarget_not_na m hna
        refine ⟨s, n, ?_, hc, ?_⟩
        · rw [rowGet_setCol_ne _ _ _ _ (by decide)]
          exact hs
        · rw [rowGet_setCol_self, hmt]
      · obtain ⟨r', hr', rfl⟩ := hr
        obtain ⟨m, hmem, hna, rfl⟩ := (mem_keepMapped merged.rows r').mp hr'
        obtain ⟨s, n, hs, hc, hmt⟩ := mapTarget_not_na m hna
        refine ⟨s, n, ?_, hc, ?_⟩
        · rw [rowGet_addDerived_ne _ _ _ (by decide) (by decide),
              rowGet_setCol_ne _ _ _ _ (by decide)]
          exact hs
        · rw [rowGet_addDerived_ne _ _ _ (by decide) (by decide),
              rowGet_setCol_self, hmt]
    · intro m hmem hna
      have hmem' : setCol m "target" (mapTarget m) ∈ keepMapped (withMappedTarget merged.rows) :=
        (mem_keepMapped merged.rows _).mpr ⟨m, hmem, hna, rfl⟩
      by_cases hhc : (hasColsOf (labelStep merged).1.cols).isEmpty = true
      · refine ⟨setCol m "target" (mapTarget m), ?_, ?_, ?_⟩
        · rw [mem_deriveStep, if_pos hhc, hrows]
          exact hmem'
        · rw [rowGet_setCol_self]
        · rw [rowGet_setCol_ne _ _ _ _ (by decide)]
      · refine ⟨addDerived (hasColsOf (labelStep merged).1.cols)
            (setCol m "target" (mapTarget m)), ?_, ?_, ?_⟩
        · rw [mem_deriveStep, if_neg hhc, hrows]
          exact ⟨_, hmem', rfl⟩
        · rw [rowGet_addDerived_ne _ _ _ (by decide) (by decide), rowGet_setCol_self]
        · rw [rowGet_addDerived_ne _ _ _ (by decide) (by decide),
              rowGet_setCol_ne _ _ _ _ (by decide)]
  · intro hcov
    have hrows : (labelStep merged).1.rows =
        merged.rows.map (fun r => setCol r "target" (Val.nat 0)) := by
      rw [labelStep_neg merged hcov]
    have hwarn : (labelStep merged).2 =
        ["Warning: covid_status column not found. Target variable not created."] := by
      rw [labelStep_neg merged hcov]
    constructor
    · intro r hr
      rw [mem_deriveStep, hrows] at hr
      split at hr
      · obtain ⟨m, hmem, rfl⟩ := List.mem_map.mp hr
        rw [rowGet_setCol_self]
      · obtain ⟨r', hr', rfl⟩ := hr
        obtain ⟨m, hmem, rfl⟩ := List.mem_map.mp hr'
        rw [rowGet_addDerived_ne _ _ _ (by decide) (by decide), rowGet_setCol_self]
    · rw [hwarn]
      simp

def wMerged : DF := (merge_datasets wMeta wInv).getD ⟨[], []⟩

theorem C4_target_labeling_witness :
    ∃ df, (create_final_dataset wMeta wInv (some "merged_coswara_dataset.csv")).result = some df ∧
      ("covid_status" ∈ wMerged.cols →
        (∀ r ∈ df.rows, ∃ s n, rowGet r "covid_status" = some (Val.str s) ∧
          covid_mapping s = some n ∧ rowGet r "target" = some (Val.nat n)) ∧
        (∀ m ∈ wMerged.rows, mapTarget m ≠ Val.na →
          ∃ r ∈ df.rows, rowGet r "target" = some (mapTarget m) ∧
            rowGet r "covid_status" = rowGet m "covid_status")) ∧
      (¬ "covid_status" ∈ wMerged.cols →
        (∀ r ∈ df.rows, rowGet r "target" = some (Val.nat 0)) ∧
        (create_final_dataset wMeta wInv (some "merged_coswara_dataset.csv")).warnings ≠ []) :=
  C4_target_labeling wMeta wInv (some "merged_coswara_dataset.csv") wMerged
    (by decide) (by decide)

/-- C6: every row of the final table has `target` in {0, 1}, and when the
`covid_status` column is present no final row carries a status value
outside the six recognized categories. -/
theorem C6_final_table_invariants (meta inv : DF) (op : Option String) (merged df : DF)
    (hm : merge_datasets meta inv = some merged)
    (hdf : (create_final_dataset meta inv op).result = some df) :
    ∀ r ∈ df.rows,
      (rowGet r "target" = some (Val.nat 0) ∨ rowGet r "target" = some (Val.nat 1)) ∧
      ("covid_status" ∈ merged.cols →
        ∃ s, rowGet r "covid_status" = some (Val.str s) ∧
          (s = "positive_mild" ∨ s = "positive_moderate" ∨ s = "positive_asymp" ∨
           s = "healthy" ∨ s = "no_resp_illness_exposed" ∨ s = "recovered_full")) := by
  by_cases he : merged.rows = []
  · rw [create_final_empty meta inv op merged hm he] at hdf
    cases hdf
  · rw [create_final_eq meta inv op merged hm he] at hdf
    have hdf' : deriveStep (labelStep merged).1 = df := Option.some.inj hdf
    subst hdf'
    intro r hr
    by_cases hcov : "covid_status" ∈ merged.cols
    · have hcols : (labelStep merged).1.cols = addColName merged.cols "target" := by
        rw [labelStep_pos merged hcov]
      have hrows : (labelStep merged).1.rows = keepMapped (withMappedTarget merged.rows) := by
        rw [labelStep_pos merged hcov]
      rw [mem_deriveStep, hcols, hrows] at hr
      split at hr
      · obtain ⟨m, hmem, hna, rfl⟩ := (mem_keepMapped merged.rows r).mp hr
        obtain ⟨s, n, hs, hc, hmt⟩ := mapTarget_not_na m hna
        obtain ⟨hn01, hs6⟩ := covid_mapping_spec s n hc
        constructor
        · rw [rowGet_setCol_self, hmt]
          rcases hn01 with rfl | rfl
          · exact Or.inl rfl
          · exact Or.inr rfl
        · intro _
          refine ⟨s, ?_, hs6⟩
          rw [rowGet_setCol_ne _ _ _ _ (by decide)]
          exact hs
      · obtain ⟨r', hr', rfl⟩ := hr
        obtain ⟨m, hmem, hna, rfl⟩ := (mem_keepMapped merged.rows r').mp hr'
        obtain ⟨s, n, hs, hc, hmt⟩ := mapTarget_not_na m hna
        obtain ⟨hn01, hs6⟩ := covid_mapping_spec s n hc
        constructor
        · rw [rowGet_addDerived_ne _ _ _ (by decide) (by decide),
              rowGet_setCol_self, hmt]
          rcases hn01 with rfl | rfl
          · exact Or.inl rfl
          · exact Or.inr rfl
        · intro _
          refine ⟨s, ?_, hs6⟩
          rw [rowGet_addDerived_ne _ _ _ (by decide) (by decide),
              rowGet_setCol_ne _ _ _ _ (by decide)]
          exact hs
    · have hrows : (labelStep merged).1.rows =
          merged.rows.map (fun r => setCol r "target" (Val.nat 0)) := by
        rw [labelStep_neg merged hcov]
      rw [mem_deriveStep, hrows] at hr
      refine ⟨?_, fun hcov' => absurd hcov' hcov⟩
      split at hr
      · obtain ⟨m, hmem, rfl⟩ := List.mem_map.mp hr
        rw [rowGet_setCol_self]
        exact Or.inl rfl
      · obtain ⟨r', hr', rfl⟩ := hr
        obtain ⟨m, hmem, rfl⟩ := List.mem_map.mp hr'
        rw [rowGet_addDerived_ne _ _ _ (by decide) (by decide), rowGet_setCol_self]
        exact Or.inl rfl

def wFinal : DF :=
  (create_final_dataset wMeta wInv (some "merged_coswara_dataset.csv")).result.getD ⟨[], []⟩

theorem C6_final_table_invariants_witness :
    (create_final_dataset wMeta wInv (some "merged_coswara_dataset.csv")).result = some wFinal ∧
    ∀ r ∈ wFinal.rows,
      (rowGet r "target" = some (Val.nat 0) ∨ rowGet r "target" = some (Val.nat 1)) ∧
      ("covid_status" ∈ wMerged.cols →
        ∃ s, rowGet r "covid_status" = some (Val.str s) ∧
          (s = "positive_mild" ∨ s = "positive_moderate" ∨ s = "positive_asymp" ∨
           s = "healthy" ∨ s = "no_resp_illness_exposed" ∨ s = "recovered_full")) :=
  ⟨by decide,
   C6_final_table_invariants wMeta wInv (some "merged_coswara_dataset.csv") wMerged wFinal
     (by decide) (by decide)⟩

/-- C10: when the inner join is non-empty but every joined row's status is
unmapped, `create_final_dataset` returns an empty table rather than no
result, and with an output path it still writes the output file, whose
bytes are exactly the header line: the empty-input check precedes the
category filter. -/
theorem C10_all_unmapped_writes_header (meta inv : DF) (p : String) (merged : DF)
    (hm : merge_datasets meta inv = some merged) (hne : merged.rows ≠ [])
    (hcov : "covid_status" ∈ merged.cols)
    (hall : ∀ m ∈ merged.rows, mapTarget m = Val.na) :
    ∃ df, (create_final_dataset meta inv (some p)).result = some df ∧ df.rows = [] ∧
      (create_final_dataset meta inv (some p)).written = [p] ∧
      toCsv df = String.intercalate "," df.cols ++ "\n" := by
  rw [create_final_eq meta inv (some p) merged hm hne]
  have hrows : (labelStep merged).1.rows = keepMapped (withMappedTarget merged.rows) := by
    rw [labelStep_pos merged hcov]
  have hkm : keepMapped (withMappedTarget merged.rows) = [] := by
    unfold keepMapped withMappedTarget
    apply List.filter_eq_nil_iff.mpr
    intro r' hr'
    obtain ⟨m, hmem, rfl⟩ := List.mem_map.mp hr'
    simp [rowGet_setCol_self, hall m hmem]
  have hfinal_rows : (deriveStep (labelStep merged).1).rows = [] := by
    have hlen := deriveStep_rows_length (labelStep merged).1
    rw [hrows, hkm] at hlen
    exact List.length_eq_zero.mp (by simpa using hlen)
  refine ⟨deriveStep (labelStep merged).1, rfl, hfinal_rows, rfl, ?_⟩
  unfold toCsv
  rw [hfinal_rows]
  simp [String.join]

def wUMeta : DF :=
  ⟨["id", "covid_status"], [[("id", Val.str "A"), ("covid_status", Val.str "under_validation")]]⟩

def wUMerged : DF := (merge_datasets wUMeta wInv).getD ⟨[], []⟩

theorem C10_all_unmapped_writes_header_witness :
    ∃ df, (create_final_dataset wUMeta wInv (some "merged_coswara_dataset.csv")).result = some df ∧
      df.rows = [] ∧
      (create_final_dataset wUMeta wInv (some "merged_coswara_dataset.csv")).written =
        ["merged_coswara_dataset.csv"] ∧
      toCsv df = String.intercalate "," df.cols ++ "\n" :=
  C10_all_unmapped_writes_header wUMeta wInv "merged_coswara_dataset.csv" wUMerged
    (by decide) (by decide) (by decide) (by decide)

/-! ### Counting lemmas for the join -/

theorem merge_datasets_eq (meta inv : DF) (lc : String)
    (hpick : pickLeftColumn meta.cols = some lc) :
    merge_datasets meta inv = some ⟨mergedCols meta inv, innerJoin meta inv lc⟩ := by
  unfold merge_datasets
  rw [hpick]

theorem filter_eq_val_length_le_one {α β : Type} [DecidableEq β] (f : α → β) (v : β)
    (l : List α) (h : (l.map f).Nodup) :
    (l.filter (fun x => decide (f x = v))).length ≤ 1 := by
  induction l with
  | nil => simp
  | cons x xs ih =>
    rw [List.filter_cons]
    by_cases hx : f x = v
    · rw [if_pos (by simpa using hx)]
      have hrest : xs.filter (fun y => decide (f y = v)) = [] := by
        apply List.filter_eq_nil_iff.mpr
        intro y hy
        simp only [decide_eq_true_eq]
        intro hyv
        have hin : f x ∈ xs.map f := by
          rw [hx, ← hyv]
          exact List.mem_map_of_mem f hy
        exact (List.nodup_cons.mp h).1 hin
      simp [hrest]
    · rw [if_neg (by simpa using hx)]
      exact ih (List.nodup_cons.mp h).2

theorem filter_val_eq_length_le_one {α β : Type} [DecidableEq β] (f : α → β) (v : β)
    (l : List α) (h : (l.map f).Nodup) :
    (l.filter (fun x => decide (v = f x))).length ≤ 1 := by
  have hcongr : l.filter (fun x => decide (v = f x)) =
      l.filter (fun x => decide (f x = v)) :=
    List.filter_congr (fun x _ => by simp [eq_comm])
  rw [hcongr]
  exact filter_eq_val_length_le_one f v l h

theorem innerJoin_length (meta inv : DF) (lc : String) :
    (innerJoin meta inv lc).length =
      (meta.rows.map (fun m => (inv.rows.filter
        (fun a => decide (rowGet a "patient_id" = rowGet m lc))).length)).sum := by
  unfold innerJoin
  rw [List.length_flatMap]
  congr 1
  simp [Function.comp, List.length_map]

theorem sum_filter_cons {α β : Type} (m : α) (M : List α) (N : List β) (p : α → β → Bool) :
    (N.map (fun a => ((m :: M).filter (fun x => p x a)).length)).sum =
      (N.filter (p m)).length + (N.map (fun a => (M.filter (fun x => p x a)).length)).sum := by
  induction N with
  | nil => simp
  | cons a N ih =>
    rw [List.map_cons, List.sum_cons, ih]
    simp only [List.filter_cons, List.map_cons, List.sum_cons]
    by_cases hp : p m a
    · simp only [hp, if_pos, List.length_cons]
      omega
    · simp only [hp, Bool.false_eq_true, if_false]
      omega

theorem sum_map_filter_length_swap {α β : Type} (M : List α) (N : List β) (p : α → β → Bool) :
    (M.map (fun m => (N.filter (p m)).length)).sum =
      (N.map (fun a => (M.filter (fun m => p m a)).length)).sum := by
  induction M with
  | nil => simp
  | cons m M ih =>
    rw [List.map_cons, List.sum_cons, ih, sum_filter_cons]

/-- C1 (amended): when `covid_status` is present, the final row count
equals the inner-join row count minus the number of joined rows whose
status category falls outside the six-entry mapping; and provided the
patient identifiers are duplicate-free in both tables, the final row
count is at most min(metadata row count, inventory row count).  (The
unconditional `≤ min` bound of the claim fails under join fan-out from
duplicated identifiers; see the counterexample.) -/
theorem C1_final_row_count (meta inv : DF) (op : Option String) (lc : String)
    (merged df : DF)
    (hpick : pickLeftColumn meta.cols = some lc)
    (hm : merge_datasets meta inv = some merged)
    (hcov : "covid_status" ∈ merged.cols)
    (hne : merged.rows ≠ [])
    (hdf : (create_final_dataset meta inv op).result = some df) :
    df.rows.length = (innerJoin meta inv lc).length -
        ((innerJoin meta inv lc).filter (fun m => decide (mapTarget m = Val.na))).length ∧
    ((meta.rows.map (fun m => rowGet m lc)).Nodup →
      (inv.rows.map (fun a => rowGet a "patient_id")).Nodup →
      df.rows.length ≤ min meta.rows.length inv.rows.length) := by
  have hmg : merged = ⟨mergedCols meta inv, innerJoin meta inv lc⟩ := by
    have h2 := merge_datasets_eq meta inv lc hpick
    rw [hm] at h2
    exact Option.some.inj h2
  have hmr : merged.rows = innerJoin meta inv lc := by rw [hmg]
  rw [create_final_eq meta inv op merged hm hne] at hdf
  have hdf' : deriveStep (labelStep merged).1 = df := Option.some.inj hdf
  subst hdf'
  have hrows : (labelStep merged).1.rows = keepMapped (withMappedTarget merged.rows) := by
    rw [labelStep_pos merged hcov]
  have hlen : (deriveStep (labelStep merged).1).rows.length =
      (innerJoin meta inv lc).length -
        ((innerJoin meta inv lc).filter (fun m => decide (mapTarget m = Val.na))).length := by
    rw [deriveStep_rows_length, hrows, length_keepMapped, hmr]
    have hsplit := List.length_eq_length_filter_add
      (l := innerJoin meta inv lc) (fun m => decide (mapTarget m = Val.na))
    have hcongr : (innerJoin meta inv lc).filter (fun m => decide (mapTarget m ≠ Val.na)) =
        (innerJoin meta inv lc).filter (fun m => ! decide (mapTarget m = Val.na)) :=
      List.filter_congr (fun m _ => by simp)
    rw [hcongr]
    omega
  refine ⟨hlen, ?_⟩
  intro hnm hna
  have h1 : (innerJoin meta inv lc).length ≤ meta.rows.length := by
    rw [innerJoin_length]
    refine le_trans (List.sum_le_card_nsmul _ 1 ?_) ?_
    · intro x hx
      obtain ⟨m, hmem, rfl⟩ := List.mem_map.mp hx
      exact filter_eq_val_length_le_one (fun a => rowGet a "patient_id")
        (rowGet m lc) inv.rows hna
    · simp
  have h2 : (innerJoin meta inv lc).length ≤ inv.rows.length := by
    rw [innerJoin_length,
        sum_map_filter_length_swap meta.rows inv.rows
          (fun m a => decide (rowGet a "patient_id" = rowGet m lc))]
    refine le_trans (List.sum_le_card_nsmul _ 1 ?_) ?_
    · intro x hx
      obtain ⟨a, hmem, rfl⟩ := List.mem_map.mp hx
      exact filter_val_eq_length_le_one (fun m => rowGet m lc)
        (rowGet a "patient_id") meta.rows hnm
    · simp
  rw [hlen]
  exact le_trans (Nat.sub_le _ _) (le_min h1 h2)

theorem C1_final_row_count_witness :
    wFinal.rows.length = (innerJoin wMeta wInv "id").length -
        ((innerJoin wMeta wInv "id").filter (fun m => decide (mapTarget m = Val.na))).length ∧
    ((wMeta.rows.map (fun m => rowGet m "id")).Nodup →
      (wInv.rows.map (fun a => rowGet a "patient_id")).Nodup →
      wFinal.rows.length ≤ min wMeta.rows.length wInv.rows.length) :=
  C1_final_row_count wMeta wInv (some "merged_coswara_dataset.csv") "id" wMerged wFinal
    (by decide) (by decide) (by decide) (by decide) (by decide)

def cexFanMeta : DF :=
  ⟨["id", "covid_status"], [[("id", Val.str "A"), ("covid_status", Val.str "healthy")]]⟩

def cexFanTree : List DateDir :=
  [⟨"d1", [⟨"A", ["cough-heavy.wav"]⟩]⟩, ⟨"d2", [⟨"A", ["cough-heavy.wav"]⟩]⟩]

/-- C1 counterexample: a patient folder appearing under two date folders
fans out in the join, so the final table has 2 rows although
min(metadata row count, inventory row count) = 1; the unconditional
`≤ min` part of the claim is false. -/
theorem C1_final_row_count_counterexample :
    cexFanMeta.rows.length = 1 ∧
    (find_audio_files "Extracted_data" cexFanTree).rows.length = 2 ∧
    ((create_final_dataset cexFanMeta (find_audio_files "Extracted_data" cexFanTree)
        none).result.map (fun df => df.rows.length)) = some 2 ∧
    ¬ (2 ≤ min cexFanMeta.rows.length
          (find_audio_files "Extracted_data" cexFanTree).rows.length) := by
  decide

/-! ### The has_ columns of the merged table -/

theorem expected_flagKeys_startWith :
    ∀ t ∈ expected_audio_types, strStartsWith (flagKey t) "has_" = true := by
  decide

theorem expected_normKeys_not_startWith :
    ∀ t ∈ expected_audio_types, strStartsWith (normKey t) "has_" = false := by
  decide

theorem expected_flagKeys_fresh :
    ∀ t ∈ expected_audio_types,
      flagKey t ≠ "has_all_audio" ∧ flagKey t ≠ "num_audio_types" ∧
      "target" ≠ flagKey t := by
  decide

theorem all_congr_list {α : Type} {xs : List α} {f g : α → Bool}
    (hfg : ∀ x ∈ xs, f x = g x) : xs.all f = xs.all g := by
  rw [Bool.eq_iff_iff, List.all_eq_true, List.all_eq_true]
  constructor
  · intro hall x hx
    rw [← hfg x hx]
    exact hall x hx
  · intro hall x hx
    rw [hfg x hx]
    exact hall x hx

theorem sum_indicator {α : Type} (l : List α) (P : α → Prop) [DecidablePred P] :
    (l.map (fun x => if P x then 1 else 0)).sum = (l.filter (fun x => decide (P x))).length := by
  induction l with
  | nil => rfl
  | cons a l ih =>
    rw [List.map_cons, List.sum_cons, List.filter_cons]
    by_cases hp : P a
    · simp only [hp, if_pos, decide_eq_true_eq, List.length_cons, ih]
      omega
    · simp [hp, ih]

theorem audioEntriesAux_keys_hasCols (pp : String) (files : List String)
    (types : List String)
    (hn : ∀ t ∈ types, strStartsWith (normKey t) "has_" = false)
    (hy : ∀ t ∈ types, strStartsWith (flagKey t) "has_" = true) :
    ((audioEntriesAux pp files types).map Prod.fst).filter
        (fun c => strStartsWith c "has_") = types.map flagKey := by
  induction types with
  | nil => rfl
  | cons t rest ih =>
    rw [audioEntriesAux_cons, List.map_append, List.filter_append]
    have hseg :
        (((if t ∈ files then
            [(normKey t, Val.str (joinPath pp t)), (flagKey t, Val.nat 1)]
          else
            [(flagKey t, Val.nat 0)]) : Row).map Prod.fst).filter
          (fun c => strStartsWith c "has_") = [flagKey t] := by
      split <;>
        simp [hn t (List.mem_cons_self t rest), hy t (List.mem_cons_self t rest)]
    rw [hseg, List.map_cons]
    rw [ih (fun x hx => hn x (List.mem_cons_of_mem t hx))
        (fun x hx => hy x (List.mem_cons_of_mem t hx))]
    rfl

theorem filter_hasCols_cons_ne (k : String) (v : Val) (r : Row)
    (hk : strStartsWith k "has_" = false) :
    (((k, v) :: r).map Prod.fst).filter (fun c => strStartsWith c "has_") =
      (r.map Prod.fst).filter (fun c => strStartsWith c "has_") := by
  simp [List.filter_cons, hk]

theorem mkAudioRecord_keys_hasCols (b d : String) (p : PatientDir) :
    ((mkAudioRecord b d p).map Prod.fst).filter (fun c => strStartsWith c "has_") =
      expected_audio_types.map flagKey := by
  unfold mkAudioRecord audioEntries
  rw [filter_hasCols_cons_ne _ _ _ (by decide), filter_hasCols_cons_ne _ _ _ (by decide)]
  exact audioEntriesAux_keys_hasCols _ _ _
    expected_normKeys_not_startWith expected_flagKeys_startWith

theorem foldl_step_hasCols (rest : List Row) (acc : List String)
    (hacc : acc.filter (fun c => strStartsWith c "has_") = expected_audio_types.map flagKey)
    (hrec : ∀ r ∈ rest, (r.map Prod.fst).filter (fun c => strStartsWith c "has_") =
      expected_audio_types.map flagKey) :
    (rest.foldl (fun acc r =>
        acc ++ ((r.map Prod.fst).filter (fun c => decide (¬ c ∈ acc)))) acc).filter
      (fun c => strStartsWith c "has_") = expected_audio_types.map flagKey := by
  induction rest generalizing acc with
  | nil => exact hacc
  | cons r rest ih =>
    rw [List.foldl_cons]
    apply ih
    · rw [List.filter_append, hacc]
      have hnil : (((r.map Prod.fst).filter (fun c => decide (¬ c ∈ acc))).filter
          (fun c => strStartsWith c "has_")) = [] := by
        apply List.filter_eq_nil_iff.mpr
        intro c hc
        intro hhas
        obtain ⟨hck, hcn⟩ := List.mem_filter.mp hc
        have h9 : c ∈ expected_audio_types.map flagKey := by
          rw [← hrec r (List.mem_cons_self r rest)]
          exact List.mem_filter.mpr ⟨hck, hhas⟩
        have hca : c ∈ acc := by
          have hmemf : c ∈ acc.filter (fun c => strStartsWith c "has_") := by
            rw [hacc]
            exact h9
          exact (List.mem_filter.mp hmemf).1
        simp [hca] at hcn
      rw [hnil, List.append_nil]
    · exact fun x hx => hrec x (List.mem_cons_of_mem r hx)

theorem find_audio_files_cols (b : String) (tree : List DateDir) :
    (find_audio_files b tree).cols = unionCols (find_audio_files b tree).rows := rfl

theorem find_audio_files_hasCols (b : String) (tree : List DateDir)
    (hne : (find_audio_files b tree).rows ≠ []) :
    hasColsOf (find_audio_files b tree).cols = expected_audio_types.map flagKey := by
  have hrecs : ∀ r ∈ (find_audio_files b tree).rows,
      (r.map Prod.fst).filter (fun c => strStartsWith c "has_") =
        expected_audio_types.map flagKey := by
    intro r hr
    obtain ⟨d, hd, p, hp, hany, rfl⟩ := (mem_find_audio_files b tree r).mp hr
    exact mkAudioRecord_keys_hasCols b d.name p
  unfold hasColsOf
  rw [find_audio_files_cols]
  cases hrows : (find_audio_files b tree).rows with
  | nil => exact absurd hrows hne
  | cons r0 rest =>
    unfold unionCols
    rw [List.foldl_cons]
    apply foldl_step_hasCols
    · have h0 := hrecs r0 (by rw [hrows]; exact List.mem_cons_self r0 rest)
      have hfe : (r0.map Prod.fst).filter (fun c => decide (¬ c ∈ ([] : List String))) =
          r0.map Prod.fst :=
        List.filter_eq_self.mpr (fun a _ => by simp)
      rw [List.nil_append, hfe, h0]
    · intro x hx
      exact hrecs x (by rw [hrows]; exact List.mem_cons_of_mem r0 hx)

theorem mergedCols_hasCols (meta : DF) (b : String) (tree : List DateDir)
    (hmc : ∀ c ∈ meta.cols, strStartsWith c "has_" = false)
    (hinvne : (find_audio_files b tree).rows ≠ []) :
    hasColsOf (mergedCols meta (find_audio_files b tree)) =
      expected_audio_types.map flagKey := by
  unfold mergedCols hasColsOf
  rw [List.filter_append]
  have h1 : meta.cols.filter (fun c => strStartsWith c "has_") = [] :=
    List.filter_eq_nil_iff.mpr (fun c hc => by simp [hmc c hc])
  rw [h1, List.nil_append, List.filter_filter]
  have hswap : (find_audio_files b tree).cols.filter
        (fun a => strStartsWith a "has_" && decide (¬ a ∈ meta.cols)) =
      (find_audio_files b tree).cols.filter
        (fun a => decide (¬ a ∈ meta.cols) && strStartsWith a "has_") :=
    List.filter_congr (fun a _ => Bool.and_comm _ _)
  rw [hswap, ← List.filter_filter]
  have h2 := find_audio_files_hasCols b tree hinvne
  unfold hasColsOf at h2
  rw [h2]
  apply List.filter_eq_self.mpr
  intro k hk
  obtain ⟨t, ht, rfl⟩ := List.mem_map.mp hk
  simp only [decide_eq_true_eq]
  intro hmem
  have htrue := expected_flagKeys_startWith t ht
  have hfalse := hmc (flagKey t) hmem
  rw [htrue] at hfalse
  cases hfalse

theorem labelStep_cols (merged : DF) :
    (labelStep merged).1.cols = addColName merged.cols "target" := by
  unfold labelStep
  split <;> rfl

theorem hasColsOf_labelStep (merged : DF) :
    hasColsOf (labelStep merged).1.cols = hasColsOf merged.cols := by
  rw [labelStep_cols]
  unfold addColName
  split
  · rfl
  · unfold hasColsOf
    rw [List.filter_append]
    have ht : (["target"] : List String).filter (fun c => strStartsWith c "has_") = [] := by
      decide
    rw [ht, List.append_nil]

theorem labelStep_rows_shape (merged : DF) (r' : Row)
    (hr' : r' ∈ (labelStep merged).1.rows) :
    ∃ m ∈ merged.rows, ∃ v, r' = setCol m "target" v := by
  by_cases hcov : "covid_status" ∈ merged.cols
  · have hrows : (labelStep merged).1.rows = keepMapped (withMappedTarget merged.rows) := by
      rw [labelStep_pos merged hcov]
    rw [hrows] at hr'
    obtain ⟨m, hmem, hna, rfl⟩ := (mem_keepMapped merged.rows r').mp hr'
    exact ⟨m, hmem, mapTarget m, rfl⟩
  · have hrows : (labelStep merged).1.rows =
        merged.rows.map (fun r => setCol r "target" (Val.nat 0)) := by
      rw [labelStep_neg merged hcov]
    rw [hrows] at hr'
    obtain ⟨m, hmem, rfl⟩ := List.mem_map.mp hr'
    exact ⟨m, hmem, Val.nat 0, rfl⟩

def cexHasMeta : DF :=
  ⟨["id", "covid_status", "has_fever"],
   [[("id", Val.str "A"), ("covid_status", Val.str "healthy"), ("has_fever", Val.nat 0)]]⟩

def cexFullTree : List DateDir := [⟨"d1", [⟨"A", expected_audio_types⟩]⟩]

/-- C2 counterexample: a metadata column `has_fever` (here 0) is swept
into the `has_`-prefixed column selection of `create_final_dataset`, so
the final row has all nine presence flags equal to 1 yet
`has_all_audio` false — the derived fields do not depend only on the nine
presence flags, and the stated iff fails. -/
theorem C2_derived_completeness_counterexample :
    ((create_final_dataset cexHasMeta (find_audio_files "Extracted_data" cexFullTree)
        none).result.map (fun df => df.rows.map (fun r =>
          (allNineOnes r, rowGet r "has_all_audio")))) =
      some [(true, some (Val.bool false))] := by
  decide

/-- C2 (amended): provided the metadata table is well-formed and has no
`has_`-prefixed column (so the `has_`-prefixed columns of the merged
table are exactly the nine presence flags), every final row has
`has_all_audio` true iff all nine presence flags equal 1 and
`num_audio_types` equal to the count of the nine flags equal to 1. -/
theorem C2_derived_completeness (b : String) (tree : List DateDir) (meta merged df : DF)
    (op : Option String)
    (hwf : ∀ m ∈ meta.rows, m.map Prod.fst = meta.cols)
    (hmc : ∀ c ∈ meta.cols, strStartsWith c "has_" = false)
    (hm : merge_datasets meta (find_audio_files b tree) = some merged)
    (hne : merged.rows ≠ [])
    (hdf : (create_final_dataset meta (find_audio_files b tree) op).result = some df) :
    ∀ r ∈ df.rows,
      rowGet r "has_all_audio" = some (Val.bool (allNineOnes r)) ∧
      rowGet r "num_audio_types" = some (Val.nat (nineOnesCount r)) := by
  cases hpk : pickLeftColumn meta.cols with
  | none =>
    have hmn : merge_datasets meta (find_audio_files b tree) = none := by
      unfold merge_datasets
      rw [hpk]
    rw [hmn] at hm
    cases hm
  | some lc =>
    have hmg : merged = ⟨mergedCols meta (find_audio_files b tree),
        innerJoin meta (find_audio_files b tree) lc⟩ := by
      have h2 := merge_datasets_eq meta (find_audio_files b tree) lc hpk
      rw [hm] at h2
      exact Option.some.inj h2
    have hmr : merged.rows = innerJoin meta (find_audio_files b tree) lc := by rw [hmg]
    have hmcols : merged.cols = mergedCols meta (find_audio_files b tree) := by rw [hmg]
    have hinvne : (find_audio_files b tree).rows ≠ [] := by
      have hjne : innerJoin meta (find_audio_files b tree) lc ≠ [] := by
        rw [← hmr]
        exact hne
      obtain ⟨w, hw⟩ := List.exists_mem_of_ne_nil _ hjne
      unfold innerJoin at hw
      obtain ⟨m0, hm0, hw2⟩ := List.mem_flatMap.mp hw
      obtain ⟨a0, ha0, rfl⟩ := List.mem_map.mp hw2
      exact List.ne_nil_of_mem (List.mem_filter.mp ha0).1
    have hhc : hasColsOf (labelStep merged).1.cols = expected_audio_types.map flagKey := by
      rw [hasColsOf_labelStep, hmcols]
      exact mergedCols_hasCols meta b tree hmc hinvne
    have hhcne : ¬ (hasColsOf (labelStep merged).1.cols).isEmpty = true := by
      rw [hhc]
      decide
    rw [create_final_eq _ _ op merged hm hne] at hdf
    have hdf' : deriveStep (labelStep merged).1 = df := Option.some.inj hdf
    subst hdf'
    intro r hr
    rw [mem_deriveStep, if_neg hhcne] at hr
    obtain ⟨r', hr', rfl⟩ := hr
    obtain ⟨m, hmem, v, rfl⟩ := labelStep_rows_shape merged r' hr'
    rw [hmr] at hmem
    unfold innerJoin at hmem
    obtain ⟨mm, hmm, hmem2⟩ := List.mem_flatMap.mp hmem
    obtain ⟨a, ha, rfl⟩ := List.mem_map.mp hmem2
    have haa : a ∈ (find_audio_files b tree).rows := (List.mem_filter.mp ha).1
    obtain ⟨d, hd, p, hp, hany, rfl⟩ := (mem_find_audio_files b tree a).mp haa
    have hkeys0 : ∀ t ∈ expected_audio_types,
        rowGet (setCol (mm ++ mkAudioRecord b d.name p) "target" v) (flagKey t) =
          some (Val.nat (hasFlag p.files t)) := by
      intro t ht
      rw [rowGet_setCol_ne _ _ _ _ (expected_flagKeys_fresh t ht).2.2, rowGet_append]
      have hmmnone : rowGet mm (flagKey t) = none := by
        apply rowGet_eq_none_of_not_mem
        rw [hwf mm hmm]
        intro hmemc
        have htrue := expected_flagKeys_startWith t ht
        have hfalse := hmc (flagKey t) hmemc
        rw [htrue] at hfalse
        cases hfalse
      rw [hmmnone, Option.none_or, rowGet_mkAudioRecord_flag b d.name p t ht]
    have hkeysN : ∀ t ∈ expected_audio_types,
        rowGet (addDerived (expected_audio_types.map flagKey)
          (setCol (mm ++ mkAudioRecord b d.name p) "target" v)) (flagKey t) =
          some (Val.nat (hasFlag p.files t)) := by
      intro t ht
      rw [rowGet_addDerived_ne _ _ _ (expected_flagKeys_fresh t ht).1
            (expected_flagKeys_fresh t ht).2.1]
      exact hkeys0 t ht
    constructor
    · rw [rowGet_addDerived_all, hhc]
      have hb : (expected_audio_types.map flagKey).all
          (fun c => truthy (rowGet (setCol (mm ++ mkAudioRecord b d.name p) "target" v) c)) =
          allNineOnes (addDerived (expected_audio_types.map flagKey)
            (setCol (mm ++ mkAudioRecord b d.name p) "target" v)) := by
        rw [List.all_map]
        unfold allNineOnes
        apply all_congr_list
        intro t ht
        simp only [Function.comp_apply]
        rw [hkeys0 t ht, hkeysN t ht]
        by_cases hf : t ∈ p.files <;> simp [hasFlag, truthy, hf]
      rw [hb]
    · rw [rowGet_addDerived_num, hhc]
      have hn : ((expected_audio_types.map flagKey).map
            (fun c => toNum (rowGet (setCol (mm ++ mkAudioRecord b d.name p) "target" v) c))).sum =
          nineOnesCount (addDerived (expected_audio_types.map flagKey)
            (setCol (mm ++ mkAudioRecord b d.name p) "target" v)) := by
        rw [List.map_map]
        have hmapeq : expected_audio_types.map
            ((fun c => toNum (rowGet (setCol (mm ++ mkAudioRecord b d.name p) "target" v) c)) ∘
              flagKey) =
            expected_audio_types.map (fun t => if t ∈ p.files then 1 else 0) :=
          List.map_congr_left (fun t ht => by
            simp only [Function.comp_apply]
            rw [hkeys0 t ht]
            by_cases hf : t ∈ p.files <;> simp [toNum, hasFlag, hf])
        rw [hmapeq, sum_indicator]
        unfold nineOnesCount
        congr 1
        apply List.filter_congr
        intro t ht
        rw [hkeysN t ht]
        by_cases hf : t ∈ p.files <;> simp [hasFlag, hf]
      rw [hn]

theorem C2_derived_completeness_witness :
    rowGet (wFinal.rows.getD 0 []) "has_all_audio" =
      some (Val.bool (allNineOnes (wFinal.rows.getD 0 []))) ∧
    rowGet (wFinal.rows.getD 0 []) "num_audio_types" =
      some (Val.nat (nineOnesCount (wFinal.rows.getD 0 []))) :=
  C2_derived_completeness "Extracted_data" wTree wMeta wMerged wFinal
    (some "merged_coswara_dataset.csv")
    (by decide) (by decide) (by decide) (by decide) (by decide)
    (wFinal.rows.getD 0 []) (by decide)
